import Mathlib

/-!
Verification of the rss-combine feed merger (src/main.rs) against its
natural-language specification.

The program is a single-shot command-line utility: it reads one primary RSS
feed and N additional feeds, collects the additional feeds' entries that carry
a GUID not seen before (the primary feed's GUIDs pre-populate the known set),
prepends those new entries to the primary entries, optionally truncates the
result, and writes it to a fixed output path.

We shallowly embed `run_app` over parsed inputs: a feed channel is a record of
channel-level metadata plus an ordered entry list; each additional source is
either unreadable, unparseable, or a successfully loaded channel (file I/O and
XML parsing are external collaborators).  The `while`-loop over an additional
file's items (which removes newly merged items from a scratch vector by index)
is an in-order scan, embedded as structural recursion over the item list.
-/

set_option autoImplicit false

namespace RssCombine

/-- One feed item.  Of its many optional fields only the GUID value takes part
in the merge algorithm; `body` stands for all remaining content and makes
distinct items distinguishable. -/
structure Item where
  guid : Option String
  body : String
deriving DecidableEq, Repr

/-- A parsed feed document: channel-level metadata (title, link, description,
build date, ...) abstracted as one field, plus the ordered item list. -/
structure Channel where
  meta : String
  items : List Item
deriving DecidableEq, Repr

/-- Outcome of opening and parsing one additional feed source
(`File::open` followed by `Channel::read_from` in the source). -/
inductive Source where
  | unreadable
  | unparseable
  | loaded (c : Channel)
deriving DecidableEq, Repr

/-- The GUID values present in an item list, in order. -/
def guidList (items : List Item) : List String :=
  items.filterMap Item.guid

/-- `HashSet::insert` on the known-GUID set, modelled as a duplicate-free
list: inserting a present element is a no-op. -/
def insertGuid (s : List String) (g : String) : List String :=
  if g ∈ s then s else g :: s

/-- The first loop of `run_app`: walk the primary items, inserting each GUID
value into the known set and counting items without a GUID. -/
def primaryLoop (known : List String) (missing : Nat) :
    List Item → List String × Nat
  | [] => (known, missing)
  | it :: rest =>
    match it.guid with
    | some g => primaryLoop (insertGuid known g) missing rest
    | none => primaryLoop known (missing + 1) rest

/-- Known-GUID set and missing-GUID count produced from the primary items. -/
def primaryPass (items : List Item) : List String × Nat :=
  primaryLoop [] 0 items

/-- The `while i != vec_items.len()` loop of `run_app` over one additional
file's items: an item without a GUID is counted and dropped; an item whose
GUID is already known is skipped; otherwise its GUID is recorded and the item
is appended to `items_extra`.  Returns the updated
(known set, extra list, missing count). -/
def mergeItems (known : List String) (extra : List Item) (missing : Nat) :
    List Item → List String × List Item × Nat
  | [] => (known, extra, missing)
  | it :: rest =>
    match it.guid with
    | none => mergeItems known extra (missing + 1) rest
    | some g =>
      if g ∈ known then
        mergeItems known extra missing rest
      else
        mergeItems (insertGuid known g) (extra ++ [it]) missing rest

/-- The mutable state threaded through the per-file loop of `run_app`:
the rolling `channel` variable (reused so the merged RSS carries the fields of
the newest successfully read file), the known-GUID set, the accumulated new
entries, and the missing-GUID counter. -/
structure MergeState where
  channel : Channel
  known_guids : List String
  items_extra : List Item
  nr_missing_guids : Nat
deriving DecidableEq, Repr

/-- Processing of one additional source in `run_app`'s `for` loop: an
unreadable or unparseable file is skipped (`continue`) leaving the state
untouched; a loaded file replaces the rolling channel and runs the dedup scan
over its items. -/
def processSource (st : MergeState) (src : Source) : MergeState :=
  match src with
  | .unreadable => st
  | .unparseable => st
  | .loaded c =>
    let r := mergeItems st.known_guids st.items_extra st.nr_missing_guids c.items
    { channel := c, known_guids := r.1, items_extra := r.2.1,
      nr_missing_guids := r.2.2 }

/-- State at the top of the `for` loop: channel = primary document, known set
and missing count from the primary pass, no extra entries yet. -/
def initState (primary : Channel) : MergeState :=
  { channel := primary
    known_guids := (primaryPass primary.items).1
    items_extra := []
    nr_missing_guids := (primaryPass primary.items).2 }

/-- The size cap applied to the combined list:
`opt.max_entries > 0 && items_extra.len() > opt.max_entries` triggers
`truncate(opt.max_entries)`; otherwise the list is left whole. -/
def truncated (max_entries : Nat) (l : List Item) : List Item :=
  if 0 < max_entries ∧ max_entries < l.length then l.take max_entries else l

/-- Result of one run of `run_app` once the primary feed has loaded: the exit
code contribution of `run_app` (always `Ok(())`, i.e. 0) and the single write
effect — `none` in the no-changes case, otherwise the output path and the
document written there. -/
structure RunResult where
  exitCode : Nat
  written : Option (String × Channel)
deriving DecidableEq, Repr

/-- The hard-coded output path passed to `tempfile_fast::Sponge::new_for`. -/
def outPath : String := "/home/olav/src/rss-combine/rss-out.xml"

/-- `run_app` after the primary feed has been opened and parsed: run the
per-file loop over the additional sources; if no new entries were collected,
return success without writing; otherwise append the original primary items
after the new entries (`items_extra.append(&mut items_orig)`), apply the size
cap, install the list into the rolling channel (`channel.set_items`) and write
the document to the fixed output path. -/
def run_app (primary : Channel) (files : List Source) (max_entries : Nat) :
    RunResult :=
  let st := files.foldl processSource (initState primary)
  if st.items_extra.length = 0 then
    { exitCode := 0, written := none }
  else
    { exitCode := 0
      written := some (outPath,
        { st.channel with
          items := truncated max_entries (st.items_extra ++ primary.items) }) }

/-- Outcome of loading the primary feed itself. -/
inductive PrimaryLoad where
  | unreadable
  | unparseable
  | loaded (c : Channel)
deriving DecidableEq, Repr

/-- How the whole process terminates: a normal `std::process::exit(code)`, or
a panic unwinding out of `run_app`. -/
inductive ProcOutcome where
  | exited (code : Nat)
  | panicked (msg : String)
deriving DecidableEq, Repr

/-- Exit status of the process for each outcome: a panic in the main thread
aborts the Rust process with the runtime's fixed status 101. -/
def processExitCode : ProcOutcome → Nat
  | .exited code => code
  | .panicked _ => 101

/-- The whole `main`: `File::open(&opt.input).expect("Cannot read main RSS
file")` and the subsequent `Channel::read_from(..).expect(..)` panic when the
primary feed cannot be opened or parsed — `run_app` never returns `Err`, so
`main`'s `Err => exit(1)` arm is unreachable and success exits with code 0. -/
def main_outcome (pl : PrimaryLoad) (files : List Source)
    (max_entries : Nat) : ProcOutcome :=
  match pl with
  | .unreadable => .panicked ("Cannot read main RSS file")
  | .unparseable => .panicked ("Cannot read main RSS file")
  | .loaded c => .exited (run_app c files max_entries).exitCode

/-! ### Specification-side definitions

These re-state parts of the spec's step-by-step algorithm in its own phrasing
(per-file batches of new entries; the rolling metadata candidate), to be
related to the embedded code by theorem. -/

/-- Spec step 4c, for one additional file: the entries of the file whose GUID
is new relative to `known` and to the earlier entries of the same file, in
intra-file order. -/
def fileNew (known : List String) : List Item → List Item
  | [] => []
  | it :: rest =>
    match it.guid with
    | none => fileNew known rest
    | some g =>
      if g ∈ known then fileNew known rest
      else it :: fileNew (insertGuid known g) rest

/-- The known-GUID set after scanning one additional file. -/
def fileKnownAfter (known : List String) : List Item → List String
  | [] => known
  | it :: rest =>
    match it.guid with
    | none => fileKnownAfter known rest
    | some g =>
      if g ∈ known then fileKnownAfter known rest
      else fileKnownAfter (insertGuid known g) rest

/-- The number of GUID-less entries in one file. -/
def fileMissing : List Item → Nat
  | [] => 0
  | it :: rest =>
    match it.guid with
    | none => fileMissing rest + 1
    | some _ => fileMissing rest

/-- Spec steps 4–7 accumulator: the extra entries are appended per additional
file, in the order the files were given, each file contributing its new
entries in intra-file order; failed sources contribute nothing. -/
def specExtras (known : List String) : List Source → List Item
  | [] => []
  | .unreadable :: rest => specExtras known rest
  | .unparseable :: rest => specExtras known rest
  | .loaded c :: rest =>
    fileNew known c.items ++ specExtras (fileKnownAfter known c.items) rest

/-- Spec's metadata rule: the most recently successfully loaded document,
starting from the primary; a source that fails to open or parse leaves the
candidate unchanged. -/
def lastLoaded (c : Channel) : List Source → Channel
  | [] => c
  | .unreadable :: rest => lastLoaded c rest
  | .unparseable :: rest => lastLoaded c rest
  | .loaded c2 :: rest => lastLoaded c2 rest

/-- The known-GUID set after scanning all additional sources. -/
def specKnown (known : List String) : List Source → List String
  | [] => known
  | .unreadable :: rest => specKnown known rest
  | .unparseable :: rest => specKnown known rest
  | .loaded c :: rest => specKnown (fileKnownAfter known c.items) rest

/-- The combined list of spec step 7, as computed by the code: the
accumulated extra entries followed by the original primary entries. -/
def combinedItems (primary : Channel) (files : List Source) : List Item :=
  (files.foldl processSource (initState primary)).items_extra ++ primary.items

/-- The non-empty identifier values of an item list. -/
def nonEmptyGuidList (items : List Item) : List String :=
  (guidList items).filter (fun g => g ≠ "")

/-- No two entries share the same non-empty identifier value. -/
def noDupIds (items : List Item) : Prop :=
  (nonEmptyGuidList items).Nodup

instance (items : List Item) : Decidable (noDupIds items) := by
  unfold noDupIds; infer_instance

/-! ### Concrete feeds used to instantiate the theorems -/

def itemA : Item := { guid := some ("A"), body := ("article-a") }

def itemB : Item := { guid := some ("B"), body := ("article-b") }

/-- A different rendering of the entry with identifier B, as it appears in the
additional feed. -/
def itemBdup : Item := { guid := some ("B"), body := ("article-b-copy") }

def itemC : Item := { guid := some ("C"), body := ("article-c") }

/-- A second primary entry that reuses identifier A. -/
def itemAdup : Item := { guid := some ("A"), body := ("article-a-copy") }

/-- A primary entry that carries no GUID. -/
def itemNoGuid : Item := { guid := none, body := ("article-unidentified") }

/-- Primary feed with entries identified A then B. -/
def prim2 : Channel := { meta := ("P"), items := [itemA, itemB] }

/-- Additional feed with entries identified B then C. -/
def addBC : Channel := { meta := ("Q"), items := [itemBdup, itemC] }

/-- Primary feed with the single entry A. -/
def prim1 : Channel := { meta := ("P"), items := [itemA] }

/-- Additional feed with the single entry C. -/
def addC : Channel := { meta := ("Q"), items := [itemC] }

/-- Additional feed whose only entry duplicates the primary identifier A. -/
def addA : Channel := { meta := ("Q"), items := [{ guid := some ("A"), body := ("article-a-again") }] }

/-- Primary feed whose entries reuse the identifier A. -/
def primDupA : Channel := { meta := ("P"), items := [itemA, itemAdup] }

/-- Primary feed with one GUID-less entry. -/
def primNoGuid : Channel := { meta := ("P"), items := [itemNoGuid] }

/-- Primary feed with one GUID-less entry followed by entry A. -/
def primNoGuidA : Channel := { meta := ("P"), items := [itemNoGuid, itemA] }

/-- Expected output: metadata of the additional feed, entries C then A. -/
def outCA : Channel := { meta := ("Q"), items := [itemC, itemA] }

/-- Expected output: metadata of the additional feed, entries C, A, B. -/
def outCAB : Channel := { meta := ("Q"), items := [itemC, itemA, itemB] }

/-- Expected output: metadata of the additional feed, single entry C. -/
def outC : Channel := { meta := ("Q"), items := [itemC] }

/-- Expected output: metadata of the additional feed, entries C, A, A-copy. -/
def outCAA : Channel := { meta := ("Q"), items := [itemC, itemA, itemAdup] }

/-- Expected output: entries C, then the GUID-less primary entry, then A. -/
def outCNoGuidA : Channel := { meta := ("Q"), items := [itemC, itemNoGuid, itemA] }

/-! ### Basic lemmas about the known-GUID set -/

theorem mem_insertGuid_self (s : List String) (g : String) : g ∈ insertGuid s g := by
  unfold insertGuid
  split
  · assumption
  · exact List.mem_cons_self _ _

theorem mem_insertGuid_of_mem {s : List String} {g2 : String} (g : String)
    (h : g2 ∈ s) : g2 ∈ insertGuid s g := by
  unfold insertGuid
  split
  · exact h
  · exact List.mem_cons_of_mem _ h

theorem guidList_nil : guidList [] = [] := rfl

theorem guidList_append (l1 l2 : List Item) :
    guidList (l1 ++ l2) = guidList l1 ++ guidList l2 := by
  simp [guidList]

theorem mem_guidList {items : List Item} {it : Item} {g : String}
    (hit : it ∈ items) (hg : it.guid = some g) : g ∈ guidList items := by
  simp only [guidList, List.mem_filterMap]
  exact ⟨it, hit, hg⟩

/-! ### The per-file scan refines the per-file batch of the spec -/

theorem mergeItems_eq_spec (items : List Item) :
    ∀ (known : List String) (extra : List Item) (missing : Nat),
      mergeItems known extra missing items =
        (fileKnownAfter known items, extra ++ fileNew known items,
          missing + fileMissing items) := by
  induction items with
  | nil =>
    intro known extra missing
    simp [mergeItems, fileKnownAfter, fileNew, fileMissing]
  | cons it rest ih =>
    intro known extra missing
    cases hg : it.guid with
    | none =>
      simp [mergeItems, fileKnownAfter, fileNew, fileMissing, hg, ih]
      omega
    | some g =>
      by_cases hk : g ∈ known
      · simp [mergeItems, fileKnownAfter, fileNew, fileMissing, hg, hk, ih]
      · simp [mergeItems, fileKnownAfter, fileNew, fileMissing, hg, hk, ih]

/-! ### The fold over the sources, projected on each state field -/

theorem foldl_processSource_channel (files : List Source) :
    ∀ st : MergeState,
      (files.foldl processSource st).channel = lastLoaded st.channel files := by
  induction files with
  | nil => intro st; rfl
  | cons src rest ih =>
    intro st
    cases src with
    | unreadable => exact ih st
    | unparseable => exact ih st
    | loaded c =>
      show (rest.foldl processSource (processSource st (Source.loaded c))).channel =
        lastLoaded c rest
      rw [ih]
      rfl

theorem foldl_processSource_known (files : List Source) :
    ∀ st : MergeState,
      (files.foldl processSource st).known_guids = specKnown st.known_guids files := by
  induction files with
  | nil => intro st; rfl
  | cons src rest ih =>
    intro st
    cases src with
    | unreadable => exact ih st
    | unparseable => exact ih st
    | loaded c =>
      show (rest.foldl processSource (processSource st (Source.loaded c))).known_guids =
        specKnown (fileKnownAfter st.known_guids c.items) rest
      rw [ih]
      simp [processSource, mergeItems_eq_spec]

theorem foldl_processSource_extra (files : List Source) :
    ∀ st : MergeState,
      (files.foldl processSource st).items_extra =
        st.items_extra ++ specExtras st.known_guids files := by
  induction files with
  | nil => intro st; simp [specExtras]
  | cons src rest ih =>
    intro st
    cases src with
    | unreadable => exact ih st
    | unparseable => exact ih st
    | loaded c =>
      show (rest.foldl processSource (processSource st (Source.loaded c))).items_extra =
        st.items_extra ++ (fileNew st.known_guids c.items ++
          specExtras (fileKnownAfter st.known_guids c.items) rest)
      rw [ih]
      simp [processSource, mergeItems_eq_spec]

theorem foldl_extra_initState (primary : Channel) (files : List Source) :
    (files.foldl processSource (initState primary)).items_extra =
      specExtras (primaryPass primary.items).1 files := by
  rw [foldl_processSource_extra]
  simp [initState]

theorem foldl_channel_initState (primary : Channel) (files : List Source) :
    (files.foldl processSource (initState primary)).channel = lastLoaded primary files := by
  rw [foldl_processSource_channel]
  rfl

/-! ### Shape of the run result -/

theorem run_app_eq (primary : Channel) (files : List Source) (k : Nat) :
    run_app primary files k =
      if (files.foldl processSource (initState primary)).items_extra = [] then
        { exitCode := 0, written := none }
      else
        { exitCode := 0
          written := some (outPath,
            { (files.foldl processSource (initState primary)).channel with
              items := truncated k
                ((files.foldl processSource (initState primary)).items_extra ++
                  primary.items) }) } := by
  unfold run_app
  by_cases h : (files.foldl processSource (initState primary)).items_extra = []
  · simp [h]
  · simp [h, List.length_eq_zero]

theorem run_app_of_extras_nil {primary : Channel} {files : List Source} {k : Nat}
    (h : (files.foldl processSource (initState primary)).items_extra = []) :
    run_app primary files k = { exitCode := 0, written := none } := by
  rw [run_app_eq, if_pos h]

theorem run_app_exitCode (primary : Channel) (files : List Source) (k : Nat) :
    (run_app primary files k).exitCode = 0 := by
  rw [run_app_eq]
  split <;> rfl

theorem run_app_written_some {primary : Channel} {files : List Source} {k : Nat}
    {path : String} {doc : Channel}
    (hw : (run_app primary files k).written = some (path, doc)) :
    path = outPath ∧
    doc = { (files.foldl processSource (initState primary)).channel with
      items := truncated k
        ((files.foldl processSource (initState primary)).items_extra ++
          primary.items) } := by
  rw [run_app_eq] at hw
  by_cases h : (files.foldl processSource (initState primary)).items_extra = []
  · rw [if_pos h] at hw
    simp at hw
  · rw [if_neg h] at hw
    simp only [Option.some.injEq, Prod.mk.injEq] at hw
    exact ⟨hw.1.symm, hw.2.symm⟩

/-! ### Invariants of the dedup scan -/

theorem mem_fileKnownAfter (items : List Item) :
    ∀ {known : List String} {g : String}, g ∈ known → g ∈ fileKnownAfter known items := by
  induction items with
  | nil => intro known g h; exact h
  | cons it rest ih =>
    intro known g h
    cases hg : it.guid with
    | none =>
      simp only [fileKnownAfter, hg]
      exact ih h
    | some g2 =>
      by_cases hk : g2 ∈ known
      · simp only [fileKnownAfter, hg, if_pos hk]
        exact ih h
      · simp only [fileKnownAfter, hg, if_neg hk]
        exact ih (mem_insertGuid_of_mem g2 h)

theorem mem_specKnown (files : List Source) :
    ∀ {known : List String} {g : String}, g ∈ known → g ∈ specKnown known files := by
  induction files with
  | nil => intro known g h; exact h
  | cons src rest ih =>
    intro known g h
    cases src with
    | unreadable => exact ih h
    | unparseable => exact ih h
    | loaded c =>
      show g ∈ specKnown (fileKnownAfter known c.items) rest
      exact ih (mem_fileKnownAfter c.items h)

theorem fileNew_props (items : List Item) :
    ∀ known : List String,
      (guidList (fileNew known items)).Nodup ∧
      (∀ g ∈ guidList (fileNew known items),
        g ∉ known ∧ g ∈ fileKnownAfter known items) := by
  induction items with
  | nil =>
    intro known
    simp [fileNew, guidList]
  | cons it rest ih =>
    intro known
    cases hg : it.guid with
    | none =>
      simpa only [fileNew, fileKnownAfter, hg] using ih known
    | some g =>
      by_cases hk : g ∈ known
      · simpa only [fileNew, fileKnownAfter, hg, if_pos hk] using ih known
      · have ih2 := ih (insertGuid known g)
        simp only [fileNew, fileKnownAfter, hg, if_neg hk]
        constructor
        · simp only [guidList, List.filterMap_cons, hg, List.nodup_cons]
          refine ⟨fun hmem => ?_, ih2.1⟩
          exact (ih2.2 g hmem).1 (mem_insertGuid_self known g)
        · intro g2 hg2
          simp only [guidList, List.filterMap_cons, hg, List.mem_cons] at hg2
          rcases hg2 with rfl | hg2
          · exact ⟨hk, mem_fileKnownAfter rest (mem_insertGuid_self known g2)⟩
          · obtain ⟨hnotin, hin⟩ := ih2.2 g2 hg2
            exact ⟨fun hmem => hnotin (mem_insertGuid_of_mem g hmem), hin⟩

theorem specExtras_props (files : List Source) :
    ∀ known : List String,
      (guidList (specExtras known files)).Nodup ∧
      (∀ g ∈ guidList (specExtras known files), g ∉ known) := by
  induction files with
  | nil =>
    intro known
    simp [specExtras, guidList]
  | cons src rest ih =>
    intro known
    cases src with
    | unreadable => exact ih known
    | unparseable => exact ih known
    | loaded c =>
      have hfile := fileNew_props c.items known
      have ihrest := ih (fileKnownAfter known c.items)
      simp only [specExtras, guidList_append, List.nodup_append]
      constructor
      · refine ⟨hfile.1, ihrest.1, ?_⟩
        intro g hgf hgr
        exact ihrest.2 g hgr (hfile.2 g hgf).2
      · intro g hg
        rcases List.mem_append.mp hg with hgf | hgr
        · exact (hfile.2 g hgf).1
        · exact fun hmem => ihrest.2 g hgr (mem_fileKnownAfter c.items hmem)

theorem fileNew_guid_ne_none (items : List Item) :
    ∀ known : List String, ∀ it ∈ fileNew known items, it.guid ≠ none := by
  induction items with
  | nil => intro known it hmem; simp [fileNew] at hmem
  | cons it0 rest ih =>
    intro known it hmem
    cases hg : it0.guid with
    | none =>
      simp only [fileNew, hg] at hmem
      exact ih known it hmem
    | some g =>
      by_cases hk : g ∈ known
      · simp only [fileNew, hg, if_pos hk] at hmem
        exact ih known it hmem
      · simp only [fileNew, hg, if_neg hk] at hmem
        rcases List.mem_cons.mp hmem with rfl | hmem
        · simp [hg]
        · exact ih (insertGuid known g) it hmem

theorem specExtras_guid_ne_none (files : List Source) :
    ∀ known : List String, ∀ it ∈ specExtras known files, it.guid ≠ none := by
  induction files with
  | nil => intro known it hmem; simp [specExtras] at hmem
  | cons src rest ih =>
    intro known it hmem
    cases src with
    | unreadable => exact ih known it hmem
    | unparseable => exact ih known it hmem
    | loaded c =>
      rw [specExtras] at hmem
      rcases List.mem_append.mp hmem with hf | hr
      · exact fileNew_guid_ne_none c.items known it hf
      · exact ih (fileKnownAfter known c.items) it hr

theorem primaryLoop_mem (items : List Item) :
    ∀ (known : List String) (n : Nat) (g : String),
      g ∈ known ∨ g ∈ guidList items → g ∈ (primaryLoop known n items).1 := by
  induction items with
  | nil =>
    intro known n g h
    rcases h with h | h
    · exact h
    · simp [guidList] at h
  | cons it rest ih =>
    intro known n g h
    cases hg : it.guid with
    | none =>
      simp only [primaryLoop, hg]
      apply ih
      rcases h with h | h
      · exact Or.inl h
      · simp only [guidList, List.filterMap_cons, hg] at h
        exact Or.inr h
    | some g2 =>
      simp only [primaryLoop, hg]
      apply ih
      rcases h with h | h
      · exact Or.inl (mem_insertGuid_of_mem g2 h)
      · simp only [guidList, List.filterMap_cons, hg, List.mem_cons] at h
        rcases h with rfl | h
        · exact Or.inl (mem_insertGuid_self known g)
        · exact Or.inr h

theorem fileNew_of_all_known (items : List Item) :
    ∀ known : List String,
      (∀ g ∈ guidList items, g ∈ known) → fileNew known items = [] := by
  induction items with
  | nil => intro known _; rfl
  | cons it rest ih =>
    intro known h
    cases hg : it.guid with
    | none =>
      simp only [fileNew, hg]
      apply ih
      intro g hgm
      apply h
      simp only [guidList, List.filterMap_cons, hg]
      exact hgm
    | some g =>
      have hgk : g ∈ known := by
        apply h
        simp [guidList, List.filterMap_cons, hg]
      simp only [fileNew, hg, if_pos hgk]
      apply ih
      intro g2 hgm
      apply h
      simp only [guidList, List.filterMap_cons, hg, List.mem_cons]
      exact Or.inr hgm

/-! ### Truncation is a sublist -/

theorem truncated_sublist (k : Nat) (l : List Item) : (truncated k l).Sublist l := by
  unfold truncated
  split
  · exact List.take_sublist _ _
  · exact List.Sublist.refl _

theorem guidList_sublist {l1 l2 : List Item} (h : l1.Sublist l2) :
    (guidList l1).Sublist (guidList l2) :=
  h.filterMap _

/-! ### Claim theorems -/

/-- Claim C1: for every run that writes output, the written entry list is the
accumulated extra entries (appended per additional file in the order the files
were given, in intra-file order) followed by the primary feed's entries, then
truncated by the size cap. -/
theorem C1_merged_entry_order (primary : Channel) (files : List Source) (k : Nat)
    (path : String) (doc : Channel)
    (hw : (run_app primary files k).written = some (path, doc)) :
    doc.items =
      truncated k (specExtras (primaryPass primary.items).1 files ++ primary.items) := by
  obtain ⟨-, hdoc⟩ := run_app_written_some hw
  subst hdoc
  show truncated k ((files.foldl processSource (initState primary)).items_extra ++
      primary.items) = _
  rw [foldl_extra_initState]

/-- Witness for C1 at the spec's scenario: primary entries identified A, B;
additional entries identified B, C; before truncation the merged identifier
sequence is C, A, B, and with a cap of 2 the written identifiers are C, A. -/
theorem C1_merged_entry_order_witness :
    (run_app prim2 [Source.loaded addBC] 2).written = some (outPath, outCA) ∧
    outCA.items =
      truncated 2 (specExtras (primaryPass prim2.items).1 [Source.loaded addBC] ++
        prim2.items) ∧
    guidList (specExtras (primaryPass prim2.items).1 [Source.loaded addBC] ++
      prim2.items) = [("C"), ("A"), ("B")] ∧
    guidList outCA.items = [("C"), ("A")] :=
  ⟨by decide,
    C1_merged_entry_order prim2 [Source.loaded addBC] 2 outPath outCA (by decide),
    by decide, by decide⟩

/-- Claim C2, evaluated on the code: when the primary feed cannot be opened or
parsed the program panics out of `run_app` (both `expect` calls carry the
message "Cannot read main RSS file"), so the process aborts with the Rust
panic status 101 — not with exit code 1 as the claim states; `run_app` never
returns `Err`, so `main`'s `Err => exit(1)` arm is unreachable.  Success,
including the no-changes case, does exit with code 0. -/
theorem C2_primary_failure_panics :
    main_outcome PrimaryLoad.unreadable [] 0 =
      ProcOutcome.panicked ("Cannot read main RSS file") ∧
    processExitCode (main_outcome PrimaryLoad.unreadable [] 0) = 101 ∧
    main_outcome PrimaryLoad.unparseable [] 0 =
      ProcOutcome.panicked ("Cannot read main RSS file") ∧
    processExitCode (main_outcome (PrimaryLoad.loaded prim1) [Source.unreadable] 0) = 0 := by
  decide

/-- Claim C3, corrected: the code never deduplicates the primary feed's
entries against each other, so two primary entries sharing identifier A both
reach the output.  Here primary = [A, A-copy], additional = [C]: the written
document's identifier list C, A, A violates the no-duplicate property. -/
theorem C3_duplicate_primary_ids_counterexample :
    (run_app primDupA [Source.loaded addC] 0).written = some (outPath, outCAA) ∧
    ¬ noDupIds outCAA.items :=
  ⟨by decide, by decide⟩

/-- Claim C3 as amended: provided the primary feed's own entries carry
pairwise distinct identifiers, no two entries of any written output share the
same non-empty identifier value. -/
theorem C3_output_ids_nodup (primary : Channel) (files : List Source) (k : Nat)
    (path : String) (doc : Channel)
    (hnd : (guidList primary.items).Nodup)
    (hw : (run_app primary files k).written = some (path, doc)) :
    noDupIds doc.items := by
  obtain ⟨-, hdoc⟩ := run_app_written_some hw
  subst hdoc
  have hprops := specExtras_props files (primaryPass primary.items).1
  have hcomb : (guidList ((files.foldl processSource (initState primary)).items_extra ++
      primary.items)).Nodup := by
    rw [foldl_extra_initState, guidList_append, List.nodup_append]
    refine ⟨hprops.1, hnd, ?_⟩
    intro g hgE hgP
    exact hprops.2 g hgE (primaryLoop_mem primary.items [] 0 g (Or.inr hgP))
  have hnd2 : (guidList (truncated k
      ((files.foldl processSource (initState primary)).items_extra ++
        primary.items))).Nodup :=
    List.Nodup.sublist (guidList_sublist (truncated_sublist _ _)) hcomb
  show ((guidList (truncated k
      ((files.foldl processSource (initState primary)).items_extra ++
        primary.items))).filter (fun g => g ≠ (""))).Nodup
  exact hnd2.filter _

/-- Witness for the amended C3: primary [A, B] (distinct identifiers),
additional [B, C], no cap — the written output has no duplicate identifier. -/
theorem C3_output_ids_nodup_witness :
    (run_app prim2 [Source.loaded addBC] 0).written = some (outPath, outCAB) ∧
    noDupIds outCAB.items :=
  ⟨by decide,
    C3_output_ids_nodup prim2 [Source.loaded addBC] 0 outPath outCAB (by decide) (by decide)⟩

/-- Claim C4: when no new entry is collected from any additional source, the
run is a no-op — nothing is written and the run succeeds with exit code 0. -/
theorem C4_no_new_entries_noop (primary : Channel) (files : List Source) (k : Nat)
    (h : specExtras (primaryPass primary.items).1 files = []) :
    run_app primary files k = { exitCode := 0, written := none } := by
  apply run_app_of_extras_nil
  rw [foldl_extra_initState, h]

/-- Witness for C4: the additional feed only repeats the primary identifier A,
so no new entry is collected and the run writes nothing. -/
theorem C4_no_new_entries_noop_witness :
    specExtras (primaryPass prim1.items).1 [Source.loaded addA] = [] ∧
    run_app prim1 [Source.loaded addA] 7 = { exitCode := 0, written := none } :=
  ⟨by decide, C4_no_new_entries_noop prim1 [Source.loaded addA] 7 (by decide)⟩

/-- Claim C5: merging a feed with itself as the sole additional source is a
no-op: every entry of the copy either has its identifier already in the known
set pre-populated from the primary or lacks an identifier, the extra-entries
list stays empty, and the run produces the no-changes outcome. -/
theorem C5_self_merge_no_changes (c : Channel) (k : Nat) :
    (∀ it ∈ c.items, ∀ g, it.guid = some g → g ∈ (primaryPass c.items).1) ∧
    ([Source.loaded c].foldl processSource (initState c)).items_extra = [] ∧
    run_app c [Source.loaded c] k = { exitCode := 0, written := none } := by
  have hmem : ∀ it ∈ c.items, ∀ g, it.guid = some g → g ∈ (primaryPass c.items).1 := by
    intro it hit g hg
    exact primaryLoop_mem c.items [] 0 g (Or.inr (mem_guidList hit hg))
  have hext : ([Source.loaded c].foldl processSource (initState c)).items_extra = [] := by
    rw [foldl_extra_initState]
    simp only [specExtras, List.append_nil]
    apply fileNew_of_all_known
    intro g hg
    exact primaryLoop_mem c.items [] 0 g (Or.inr hg)
  exact ⟨hmem, hext, run_app_of_extras_nil hext⟩

/-- Claim C6: the metadata of any written output document is that of the most
recently successfully loaded feed: the primary if no additional source loads,
otherwise the last additional source that was opened and parsed successfully;
unreadable and unparseable sources leave the candidate unchanged. -/
theorem C6_output_metadata_last_loaded (primary : Channel) (files : List Source) (k : Nat)
    (path : String) (doc : Channel)
    (hw : (run_app primary files k).written = some (path, doc)) :
    doc.meta = (lastLoaded primary files).meta := by
  obtain ⟨-, hdoc⟩ := run_app_written_some hw
  subst hdoc
  show (files.foldl processSource (initState primary)).channel.meta = _
  rw [foldl_channel_initState]

/-- Witness for C6: the additional feed list is a loaded feed with metadata Q
followed by an unparseable source; the written metadata is Q, untouched by the
trailing parse failure. -/
theorem C6_output_metadata_last_loaded_witness :
    (run_app prim1 [Source.loaded addC, Source.unparseable] 0).written =
      some (outPath, outCA) ∧
    outCA.meta = (lastLoaded prim1 [Source.loaded addC, Source.unparseable]).meta ∧
    (lastLoaded prim1 [Source.loaded addC, Source.unparseable]).meta = ("Q") :=
  ⟨by decide,
    C6_output_metadata_last_loaded prim1 [Source.loaded addC, Source.unparseable] 0
      outPath outCA (by decide),
    by decide⟩

/-- Claim C7: if the cap is positive and the merged list is longer than the
cap, the written list is exactly the first `max_entries` elements; if the cap
is 0 (unlimited) or the length does not exceed it, the list is left whole. -/
theorem C7_truncation_rule (primary : Channel) (files : List Source) (k : Nat)
    (path : String) (doc : Channel)
    (hw : (run_app primary files k).written = some (path, doc)) :
    (0 < k ∧ k < (combinedItems primary files).length →
      doc.items = (combinedItems primary files).take k ∧ doc.items.length = k) ∧
    (k = 0 ∨ (combinedItems primary files).length ≤ k →
      doc.items = combinedItems primary files) := by
  obtain ⟨-, hdoc⟩ := run_app_written_some hw
  subst hdoc
  constructor
  · intro hcond
    constructor
    · show truncated k (combinedItems primary files) = _
      unfold truncated
      rw [if_pos hcond]
    · show (truncated k (combinedItems primary files)).length = k
      unfold truncated
      rw [if_pos hcond, List.length_take]
      omega
  · intro hcond
    have hnot : ¬(0 < k ∧ k < (combinedItems primary files).length) := by
      rcases hcond with rfl | hle
      · simp
      · omega
    show truncated k (combinedItems primary files) = _
    unfold truncated
    rw [if_neg hnot]

/-- Witness for C7: primary [A], additional [C], cap 1: the merged list C, A
has length 2 > 1, so exactly the first entry C is written. -/
theorem C7_truncation_rule_witness :
    (run_app prim1 [Source.loaded addC] 1).written = some (outPath, outC) ∧
    ((0 < 1 ∧ 1 < (combinedItems prim1 [Source.loaded addC]).length →
      outC.items = (combinedItems prim1 [Source.loaded addC]).take 1 ∧
        outC.items.length = 1) ∧
    (1 = 0 ∨ (combinedItems prim1 [Source.loaded addC]).length ≤ 1 →
      outC.items = combinedItems prim1 [Source.loaded addC])) :=
  ⟨by decide, C7_truncation_rule prim1 [Source.loaded addC] 1 outPath outC (by decide)⟩

/-- Claim C8: adding an unreadable source anywhere among the additional feed
sources changes nothing: the run result (including any written document) is
identical to the run without it, and both runs exit with code 0. -/
theorem C8_unreadable_source_skipped (primary : Channel) (l1 l2 : List Source) (k : Nat) :
    run_app primary (l1 ++ Source.unreadable :: l2) k = run_app primary (l1 ++ l2) k ∧
    (run_app primary (l1 ++ Source.unreadable :: l2) k).exitCode = 0 ∧
    (run_app primary (l1 ++ l2) k).exitCode = 0 := by
  have hfold : (l1 ++ Source.unreadable :: l2).foldl processSource (initState primary) =
      (l1 ++ l2).foldl processSource (initState primary) := by
    rw [List.foldl_append, List.foldl_append, List.foldl_cons]
    rfl
  refine ⟨?_, run_app_exitCode _ _ _, run_app_exitCode _ _ _⟩
  rw [run_app_eq, run_app_eq, hfold]

/-- Claim C9, corrected: with primary = [one GUID-less entry], additional =
[C] and a cap of 1, the run writes output yet the GUID-less primary entry is
truncated away — so the original "regardless of maxEntries" fails. -/
theorem C9_truncation_drops_unidentified_counterexample :
    (run_app primNoGuid [Source.loaded addC] 1).written = some (outPath, outC) ∧
    itemNoGuid ∈ primNoGuid.items ∧ itemNoGuid.guid = none ∧
    itemNoGuid ∉ outC.items :=
  ⟨by decide, by decide, rfl, by decide⟩

/-- Claim C9 as amended: in every written output, an entry without an
identifier can only come from the primary feed (additional-source entries
without identifiers never appear); and whenever no truncation applies (cap 0
or merged length within the cap), every GUID-less primary entry is present in
the output. -/
theorem C9_missing_id_handling (primary : Channel) (files : List Source) (k : Nat)
    (path : String) (doc : Channel)
    (hw : (run_app primary files k).written = some (path, doc)) :
    (∀ it ∈ doc.items, it.guid = none → it ∈ primary.items) ∧
    (k = 0 ∨ (combinedItems primary files).length ≤ k →
      ∀ it ∈ primary.items, it.guid = none → it ∈ doc.items) := by
  obtain ⟨-, hdoc⟩ := run_app_written_some hw
  subst hdoc
  constructor
  · intro it hmem hnone
    have hmem2 : it ∈ (files.foldl processSource (initState primary)).items_extra ++
        primary.items :=
      (truncated_sublist k _).subset hmem
    rcases List.mem_append.mp hmem2 with hE | hP
    · exfalso
      rw [foldl_extra_initState] at hE
      exact specExtras_guid_ne_none files _ it hE hnone
    · exact hP
  · intro hcond it hmem _
    have hnot : ¬(0 < k ∧ k < (combinedItems primary files).length) := by
      rcases hcond with rfl | hle
      · simp
      · omega
    show it ∈ truncated k (combinedItems primary files)
    unfold truncated
    rw [if_neg hnot]
    exact List.mem_append.mpr (Or.inr hmem)

/-- Witness for the amended C9: primary [GUID-less entry, A], additional [C],
no cap: the GUID-less entry is present in the written output. -/
theorem C9_missing_id_handling_witness :
    (run_app primNoGuidA [Source.loaded addC] 0).written = some (outPath, outCNoGuidA) ∧
    itemNoGuid ∈ outCNoGuidA.items :=
  ⟨by decide,
    (C9_missing_id_handling primNoGuidA [Source.loaded addC] 0 outPath outCNoGuidA
      (by decide)).2 (Or.inl rfl) itemNoGuid (by decide) rfl⟩

/-- Claim C10: every write the program performs targets the single hard-coded
output path; the input feeds appear only as read inputs of the run. -/
theorem C10_output_path_fixed (primary : Channel) (files : List Source) (k : Nat)
    (path : String) (doc : Channel)
    (hw : (run_app primary files k).written = some (path, doc)) :
    path = outPath :=
  (run_app_written_some hw).1

/-- Witness for C10: a run that writes output does so at the hard-coded
path. -/
theorem C10_output_path_fixed_witness :
    (run_app prim1 [Source.loaded addC] 0).written =
      some (("/home/olav/src/rss-combine/rss-out.xml"), outCA) ∧
    ("/home/olav/src/rss-combine/rss-out.xml") = outPath :=
  ⟨by decide, C10_output_path_fixed prim1 [Source.loaded addC] 0 _ outCA (by decide)⟩

end RssCombine
